import Mathlib

/-!
# Verification of the M110 label-printer core

A shallow embedding of the M110 ZPL label-printer web application:
label-size validation and monochrome conversion (utils), the ZPL
parser/interpreter (zpl-renderer), and the printer protocol encoder
(printer).  JavaScript numbers are modelled by `ℚ`/`ℤ`/`ℕ` with exact
arithmetic; `NaN`-carrying results of `parseInt`/`parseFloat` are
modelled by `Option` (`none` = `NaN`); byte arrays are `List ℕ`.
-/

/-! ## utils.js -/

/-- `Math.round` for non-negative and negative rationals alike:
JavaScript rounds half-way cases toward positive infinity. -/
def jsRound (q : ℚ) : ℤ := ⌊q + 1/2⌋

/-- `DPMM = 8` (203 DPI ≈ 8 dots per mm). -/
def DPMM : ℚ := 8

/-- `MAX_WIDTH_PX = 384`. -/
def MAX_WIDTH_PX : ℤ := 384

/-- `MIN_WIDTH_MM = 20`. -/
def MIN_WIDTH_MM : ℚ := 20

/-- `MAX_WIDTH_MM = 48`. -/
def MAX_WIDTH_MM : ℚ := 48

/-- `mmToPixels(mm) = Math.round(mm * DPMM)`. -/
def mmToPixels (mm : ℚ) : ℤ := jsRound (mm * DPMM)

/-- Which branch of `validateLabelSize` rejected the input.  The JS code
returns a distinct error string per branch; the constructor identifies
the branch (and hence the message). -/
inductive LabelError
  | widthTooSmall
  | widthTooLarge
  | heightNotPositive
  | widthPxTooLarge
deriving DecidableEq

/-- Result of `validateLabelSize`: `{valid: true, widthPx, heightPx}` or
`{valid: false, error}`. -/
inductive ValidationResult
  | valid (widthPx heightPx : ℤ)
  | invalid (err : LabelError)
deriving DecidableEq

/-- `validateLabelSize(widthMm, heightMm)` from utils.js: the four
  guards in source order, then the valid result with rounded pixel
  sizes. -/
def validateLabelSize (widthMm heightMm : ℚ) : ValidationResult :=
  if widthMm < MIN_WIDTH_MM then .invalid .widthTooSmall
  else if MAX_WIDTH_MM < widthMm then .invalid .widthTooLarge
  else if heightMm ≤ 0 then .invalid .heightNotPositive
  else
    let widthPx := mmToPixels widthMm
    let heightPx := mmToPixels heightMm
    if MAX_WIDTH_PX < widthPx then .invalid .widthPxTooLarge
    else .valid widthPx heightPx

/-- `valid` field of a `ValidationResult`. -/
def ValidationResult.isValid : ValidationResult → Bool
  | .valid _ _ => true
  | .invalid _ => false

/-! ## printer.js (protocol encoder) -/

/-- `convertBitmapForPrinter`: invert every byte (XOR `0xFF`) because the
wire format uses 1 = black while the packed bitmap uses 0 = black.  The
`width`/`height` arguments are carried as in the source (the source
computes `rowBytes` from them but does not use it). -/
def convertBitmapForPrinter (bitmap : List ℕ) (width height : ℕ) : List ℕ :=
  bitmap.map (fun b => b ^^^ 0xFF)

/-- `mmToDots(mm) = Math.round(mm * 8)`. -/
def mmToDots (mm : ℚ) : ℤ := jsRound (mm * 8)

/-- Storing an integer into a `Uint8Array` slot: JavaScript `ToUint8`,
i.e. the value modulo 256 (non-negative representative). -/
def toUint8 (v : ℤ) : ℕ := (v % 256).toNat

/-- `buildFeedCommand(dots)`: the `ESC J n` bytes
`[0x1B, 0x4A, Math.min(dots, 255)]`, with the count byte stored through
`Uint8Array` (so reduced modulo 256).  Note the source has no lower
clamp. -/
def buildFeedCommand (dots : ℤ) : List ℕ :=
  [0x1B, 0x4A, toUint8 (min dots 255)]

/-- The feed command the encoder builds for a feed distance in mm, as in
`buildFeedCommand(mmToDots(mm))` (used with `DEFAULT_FEED_MM = 4` after a
print, and with the caller-supplied distance in `feedPaper`). -/
def feedCommandForMm (mm : ℚ) : List ℕ :=
  buildFeedCommand (mmToDots mm)

/-! ## Claims C1, C4, C9 -/

/-- **C1.** For every `width_mm` with `20 ≤ width_mm ≤ 48` and every
`height_mm > 0` whose resulting `width_px` is at most 384,
`validateLabelSize` returns `valid` with `widthPx = round(width_mm*8)`
and `heightPx = round(height_mm*8)`; `validateLabelSize 19 h` and
`validateLabelSize 49 h` are invalid for every `h`, and
`validateLabelSize 49 1` fails specifically with the width-maximum
error. -/
theorem validateLabelSize_correct :
    (∀ w h : ℚ, 20 ≤ w → w ≤ 48 → 0 < h → mmToPixels w ≤ 384 →
      validateLabelSize w h = .valid (mmToPixels w) (mmToPixels h)) ∧
    (∀ h : ℚ, (validateLabelSize 19 h).isValid = false) ∧
    (∀ h : ℚ, (validateLabelSize 49 h).isValid = false) ∧
    validateLabelSize 49 1 = .invalid .widthTooLarge := by
  refine ⟨?_, ?_, ?_, ?_⟩
  · intro w h hw1 hw2 hh hpx
    unfold validateLabelSize MIN_WIDTH_MM MAX_WIDTH_MM MAX_WIDTH_PX
    rw [if_neg (by linarith), if_neg (by linarith), if_neg (by linarith),
      if_neg (by omega)]
  · intro h
    unfold validateLabelSize MIN_WIDTH_MM
    rw [if_pos (by norm_num)]
    rfl
  · intro h
    unfold validateLabelSize MIN_WIDTH_MM MAX_WIDTH_MM
    rw [if_neg (by norm_num), if_pos (by norm_num)]
    rfl
  · unfold validateLabelSize MIN_WIDTH_MM MAX_WIDTH_MM
    rw [if_neg (by norm_num), if_pos (by norm_num)]

/-- Witness for C1: the 40 mm × 30 mm label evaluates to 320 × 240 px. -/
theorem validateLabelSize_correct_witness :
    (20 : ℚ) ≤ 40 ∧ (40 : ℚ) ≤ 48 ∧ (0 : ℚ) < 30 ∧ mmToPixels 40 ≤ 384 ∧
    validateLabelSize 40 30 = .valid 320 240 := by
  have hw : mmToPixels 40 = 320 := by
    rw [mmToPixels, jsRound, DPMM]; norm_num
  have hh : mmToPixels 30 = 240 := by
    rw [mmToPixels, jsRound, DPMM]; norm_num
  have h := validateLabelSize_correct.1 40 30 (by norm_num) (by norm_num)
    (by norm_num) (by rw [hw]; norm_num)
  refine ⟨by norm_num, by norm_num, by norm_num, by rw [hw]; norm_num, ?_⟩
  rw [h, hw, hh]

/-- **C4.** For every packed bitmap (byte list), applying the protocol
encoder's inversion (XOR `0xFF` per byte) and XOR-ing every resulting
byte with `0xFF` again recovers the original list byte for byte, with
the same length. -/
theorem convertBitmapForPrinter_roundTrip (bitmap : List ℕ) (width height : ℕ) :
    (convertBitmapForPrinter bitmap width height).map (fun b => b ^^^ 0xFF) = bitmap ∧
    (convertBitmapForPrinter bitmap width height).length = bitmap.length := by
  have hxor : ∀ b : ℕ, (b ^^^ 0xFF) ^^^ 0xFF = b := by
    intro b
    rw [Nat.xor_assoc, Nat.xor_self, Nat.xor_zero]
  constructor
  · rw [convertBitmapForPrinter, List.map_map]
    simp only [Function.comp_def, hxor]
    exact List.map_id _
  · simp [convertBitmapForPrinter]

/-- Counterexample for **C9** as stated: the claim's clamp
`max(0, min(round(mm*8), 255))` would give count byte 0 at `mm = -1`,
but the code (which only clamps from above, then stores through a
`Uint8Array`) produces count byte 248. -/
theorem feedCommand_neg_counterexample :
    feedCommandForMm (-1) = [0x1B, 0x4A, 248] ∧
    Int.toNat (max 0 (min (mmToDots (-1)) 255)) = 0 ∧
    (248 : ℕ) ≠ 0 := by
  have hm : mmToDots (-1) = -8 := by
    rw [mmToDots, jsRound]; norm_num
  refine ⟨?_, ?_, by decide⟩
  · rw [feedCommandForMm, buildFeedCommand, hm]
    decide
  · rw [hm]
    decide

/-- **C9 (amended).** For every feed distance `mm ≥ 0`, the feed command
is exactly `0x1B 0x4A` followed by one count byte equal to
`max(0, min(round(mm*8), 255))` (for non-negative distances the lower
clamp is vacuous and the code's `Math.min` upper clamp realizes it).
For negative `mm` the count byte instead wraps modulo 256. -/
theorem feedCommand_clamped (mm : ℚ) (h : 0 ≤ mm) :
    feedCommandForMm mm = [0x1B, 0x4A, Int.toNat (max 0 (min (mmToDots mm) 255))] := by
  have hd : 0 ≤ mmToDots mm := by
    rw [mmToDots, jsRound]
    have : (0 : ℚ) ≤ mm * 8 + 1/2 := by linarith
    exact Int.le_floor.mpr (by exact_mod_cast this)
  have h1 : 0 ≤ min (mmToDots mm) 255 := le_min hd (by norm_num)
  have h2 : min (mmToDots mm) 255 < 256 := lt_of_le_of_lt (min_le_right _ _) (by norm_num)
  rw [feedCommandForMm, buildFeedCommand, toUint8, Int.emod_eq_of_lt h1 h2,
    max_eq_right h1]

/-- Witness for C9 (amended): the default post-print feed of 4 mm gives
count byte 32. -/
theorem feedCommand_clamped_witness :
    (0 : ℚ) ≤ 4 ∧ feedCommandForMm 4 = [0x1B, 0x4A, 32] := by
  have h := feedCommand_clamped 4 (by norm_num)
  have hm : mmToDots 4 = 32 := by
    rw [mmToDots, jsRound]; norm_num
  refine ⟨by norm_num, ?_⟩
  rw [h, hm]
  decide

/-! ## JavaScript string/number helpers

These model the JavaScript built-ins the renderer relies on:
`String.prototype.trim`, `String.prototype.split(',')`, `parseInt`,
`parseFloat`, and the `||`-defaulting idiom (`0`, `NaN` and `""` are
falsy). -/

/-- Whitespace recognized by `trim`/`parseInt` (the ASCII subset that
can occur in label markup). -/
def isJsSpace (c : Char) : Bool :=
  c = ' ' ∨ c = '\t' ∨ c = '\n' ∨ c = '\r' ∨ c = '\x0b' ∨ c = '\x0c'

/-- `String.prototype.trim`: strip leading and trailing whitespace. -/
def jsTrim (s : String) : String :=
  String.mk (((s.toList.dropWhile (fun c => isJsSpace c)).reverse.dropWhile
    (fun c => isJsSpace c)).reverse)

/-- Accumulator pass for `split(',')`. -/
def splitCommaAux : List Char → List Char → List String
  | [], acc => [String.mk acc.reverse]
  | c :: rest, acc =>
    if c = ',' then String.mk acc.reverse :: splitCommaAux rest []
    else splitCommaAux rest (c :: acc)

/-- `params.split(',')` (single-character separator; `"".split(',')`
yields `[""]`). -/
def jsSplit (s : String) : List String :=
  splitCommaAux s.toList []

/-- Decimal value of a digit run (the digits are 0–9). -/
def digitsVal (ds : List Char) : ℕ :=
  ds.foldl (fun acc c => acc * 10 + (c.toNat - 48)) 0

/-- Character class `[0-9A-Fa-f]` (code-unit comparisons, as JavaScript
compares single-character strings). -/
def isHexDigitChar (c : Char) : Bool :=
  ('0'.toNat ≤ c.toNat ∧ c.toNat ≤ '9'.toNat) ∨
  ('A'.toNat ≤ c.toNat ∧ c.toNat ≤ 'F'.toNat) ∨
  ('a'.toNat ≤ c.toNat ∧ c.toNat ≤ 'f'.toNat)

/-- Value of one hexadecimal digit (0 for non-digits, unused there). -/
def hexVal (c : Char) : ℕ :=
  if '0'.toNat ≤ c.toNat ∧ c.toNat ≤ '9'.toNat then c.toNat - 48
  else if 'A'.toNat ≤ c.toNat ∧ c.toNat ≤ 'F'.toNat then c.toNat - 55
  else if 'a'.toNat ≤ c.toNat ∧ c.toNat ≤ 'f'.toNat then c.toNat - 87
  else 0

/-- Hexadecimal value of a digit run. -/
def hexDigitsVal (ds : List Char) : ℕ :=
  ds.foldl (fun acc c => acc * 16 + hexVal c) 0

/-- JavaScript `parseInt(s)` (radix unspecified): skip whitespace, an
optional sign, then either a `0x`/`0X`-prefixed hexadecimal digit run or
a decimal digit run, taking the longest prefix; `none` models `NaN`
(no digits). -/
def jsParseInt (s : String) : Option ℤ :=
  let cs := s.toList.dropWhile (fun c => isJsSpace c)
  let signAndRest : ℤ × List Char :=
    match cs with
    | '-' :: t => (-1, t)
    | '+' :: t => (1, t)
    | _ => (1, cs)
  let sign := signAndRest.1
  match signAndRest.2 with
  | '0' :: x :: t =>
    if x = 'x' ∨ x = 'X' then
      let ds := t.takeWhile (fun c => isHexDigitChar c)
      if ds = [] then none else some (sign * hexDigitsVal ds)
    else
      let ds := ('0' :: x :: t).takeWhile Char.isDigit
      some (sign * digitsVal ds)
  | rest =>
    let ds := rest.takeWhile Char.isDigit
    if ds = [] then none else some (sign * digitsVal ds)

/-- Positive powers of ten over `ℚ` (kept recursive so that concrete
values evaluate). -/
def pow10 : ℕ → ℚ
  | 0 => 1
  | n + 1 => 10 * pow10 n

/-- `10^z` for a signed exponent. -/
def zpow10 (z : ℤ) : ℚ :=
  match z with
  | .ofNat n => pow10 n
  | .negSucc n => 1 / pow10 (n + 1)

/-- JavaScript `parseFloat(s)`: optional sign, decimal digits with an
optional fraction and an optional exponent, longest valid prefix;
`none` models `NaN`.  (The `Infinity` literal cannot arise from the
finite label parameters and is not modelled.) -/
def jsParseFloat (s : String) : Option ℚ :=
  let cs := s.toList.dropWhile (fun c => isJsSpace c)
  let signAndRest : ℚ × List Char :=
    match cs with
    | '-' :: t => (-1, t)
    | '+' :: t => (1, t)
    | _ => (1, cs)
  let sign := signAndRest.1
  let intPart := signAndRest.2.takeWhile Char.isDigit
  let afterInt := signAndRest.2.drop intPart.length
  let fracAndRest : List Char × List Char :=
    match afterInt with
    | '.' :: t => (t.takeWhile Char.isDigit, t.drop (t.takeWhile Char.isDigit).length)
    | _ => ([], afterInt)
  let fracPart := fracAndRest.1
  if intPart = [] ∧ fracPart = [] then none
  else
    let base : ℚ :=
      (digitsVal intPart : ℚ) + (digitsVal fracPart : ℚ) / pow10 fracPart.length
    let withExp : ℚ :=
      match fracAndRest.2 with
      | e :: t =>
        if e = 'e' ∨ e = 'E' then
          let expSignAndRest : ℤ × List Char :=
            match t with
            | '-' :: t2 => (-1, t2)
            | '+' :: t2 => (1, t2)
            | _ => (1, t)
          let eds := expSignAndRest.2.takeWhile Char.isDigit
          if eds = [] then base
          else base * zpow10 (expSignAndRest.1 * (digitsVal eds : ℤ))
        else base
      | [] => base
    some (sign * withExp)

/-- The `x || d` defaulting idiom on a `parseInt`/`parseFloat` result:
`NaN` (`none`) and `0` are falsy and give the default. -/
def jsOrInt (o : Option ℤ) (d : ℤ) : ℤ :=
  match o with
  | some v => if v = 0 then d else v
  | none => d

/-- `x || d` where the default is itself a possibly-`NaN` number. -/
def jsOrOpt (o : Option ℤ) (d : Option ℤ) : Option ℤ :=
  match o with
  | some v => if v = 0 then d else some v
  | none => d

/-- `s || d` on strings: the empty string is falsy. -/
def jsOrStr (s d : String) : String :=
  if s = "" then d else s

/-- `String.prototype.toUpperCase` (ASCII). -/
def jsToUpperCase (s : String) : String :=
  String.mk (s.toList.map Char.toUpper)

/-! ## zpl-renderer.js: parser -/

/-- A parsed `{ command, params }` record. -/
structure Cmd where
  command : String
  params : String
deriving DecidableEq

/-- Designator characters of the markup: `^` and `~`. -/
def isDesignator (c : Char) : Bool := c = '^' ∨ c = '~'

/-- Character class `[A-Z]` under the `i` flag: ASCII letters of either
case. -/
def isLetterChar (c : Char) : Bool :=
  ('A'.toNat ≤ c.toNat ∧ c.toNat ≤ 'Z'.toNat) ∨
  ('a'.toNat ≤ c.toNat ∧ c.toNat ≤ 'z'.toNat)

/-- One `exec` scan of `/[\^~]([A-Z]{1,2})([^^\~]*)/gi`: at a designator
followed by one or two letters, emit the upper-cased command name and
the trimmed parameter run (all characters up to the next designator);
otherwise advance one character.  `fuel` bounds the scan; every
iteration consumes at least one character, so the input length
suffices. -/
def parseZPLAux : ℕ → List Char → List Cmd
  | 0, _ => []
  | _, [] => []
  | fuel + 1, c :: rest =>
    if isDesignator c then
      match rest with
      | [] => []
      | d1 :: r1 =>
        if isLetterChar d1 then
          match r1 with
          | d2 :: r2 =>
            if isLetterChar d2 then
              let ps := r2.takeWhile (fun ch => ¬ isDesignator ch)
              ⟨String.mk [d1.toUpper, d2.toUpper], jsTrim (String.mk ps)⟩ ::
                parseZPLAux fuel (r2.drop ps.length)
            else
              let ps := r1.takeWhile (fun ch => ¬ isDesignator ch)
              ⟨String.mk [d1.toUpper], jsTrim (String.mk ps)⟩ ::
                parseZPLAux fuel (r1.drop ps.length)
          | [] => [⟨String.mk [d1.toUpper], ""⟩]
        else parseZPLAux fuel rest
    else parseZPLAux fuel rest

/-- `parseZPL(zpl)`: all command records of the markup text, in order. -/
def parseZPL (zpl : String) : List Cmd :=
  parseZPLAux zpl.toList.length zpl.toList

/-! ## zpl-renderer.js: interpreter state -/

/-- The `pendingBarcode` descriptor recorded by `^BC` / `^BQ` (and never
consumed by any other handler). -/
inductive PendingBarcode
  | code128 (orientation : String) (height : Option ℤ)
      (printText textAbove : Bool) (x y : ℤ)
  | qr (orientation : String) (model magnification : ℤ) (x y : ℤ)
deriving DecidableEq

/-- The mutable fields of the `ZPLRenderer` instance.  The fields
below `labelHeight` are only ever created by their handlers (they are
not initialized by `reset`); `none` models the JavaScript `undefined`
of a property that was never assigned.  `Option ℤ` number fields can
also hold `none` = `NaN` once assigned (e.g. `^CF` with a non-numeric
parameter). -/
structure RState where
  x : ℤ
  y : ℤ
  font : String
  fontHeight : Option ℤ
  fontWidth : Option ℤ
  rotation : Char
  fieldReversePrint : Bool
  barcodeHeight : Option ℤ
  barcodeModuleWidth : Option ℤ
  barcodeWideToNarrow : Option ℚ
  labelWidth : ℤ
  labelHeight : ℤ
  blockWidth : Option ℤ
  pendingBarcode : Option PendingBarcode
  labelHomeX : Option ℤ
  labelHomeY : Option ℤ
deriving DecidableEq

/-- `reset()`: restore the constructor-initialized fields to their
defaults.  Faithful to the source, it does NOT touch `blockWidth`,
`pendingBarcode`, `labelHomeX` or `labelHomeY`. -/
def reset (s : RState) : RState :=
  { s with
    x := 0
    y := 0
    font := "0"
    fontHeight := some 30
    fontWidth := some 30
    rotation := 'N'
    fieldReversePrint := false
    barcodeHeight := some 100
    barcodeModuleWidth := some 2
    barcodeWideToNarrow := some 3
    labelWidth := 320
    labelHeight := 240 }

/-- The state of a freshly constructed `ZPLRenderer` (the constructor
calls `reset()`; the handler-created properties are still absent). -/
def initialState : RState :=
  reset {
    x := 0, y := 0, font := "0", fontHeight := some 30, fontWidth := some 30
    rotation := 'N', fieldReversePrint := false, barcodeHeight := some 100
    barcodeModuleWidth := some 2, barcodeWideToNarrow := some 3
    labelWidth := 320, labelHeight := 240
    blockWidth := none, pendingBarcode := none
    labelHomeX := none, labelHomeY := none }

/-! ## zpl-renderer.js: command handlers (state transitions)

The handlers below are the state-transition parts of the source
handlers.  `^FD`, `^GB` and `^GF` additionally emit drawing calls
against the canvas, which carry no interpreter state; only `^FD`'s
clearing of the reverse-print flag touches state. -/

/-- `handleFieldOrigin(params)`: `x = parseInt(parts[0]) || 0`,
`y = parseInt(parts[1]) || 0`, clear the reverse-print flag. -/
def handleFieldOrigin (s : RState) (params : String) : RState :=
  let parts := jsSplit params
  { s with
    x := jsOrInt (jsParseInt (parts.getD 0 "")) 0
    y := jsOrInt (jsParseInt (parts.getD 1 "")) 0
    fieldReversePrint := false }

/-- `handleFont(params)`: the anchored match
`^([A-Z0-9])?([NRIB])?(?:,(\d+))?(?:,(\d+))?` with the `i` flag.  All
groups are optional, so the regex never backtracks: each group greedily
takes its characters or matches empty. -/
def handleFont (s : RState) (params : String) : RState :=
  let cs := params.toList
  let g1 : Option Char × List Char :=
    match cs with
    | c :: t => if isLetterChar c ∨ c.isDigit then (some c, t) else (none, c :: t)
    | [] => (none, [])
  let g2 : Option Char × List Char :=
    match g1.2 with
    | c :: t =>
      if c = 'N' ∨ c = 'R' ∨ c = 'I' ∨ c = 'B' ∨
         c = 'n' ∨ c = 'r' ∨ c = 'i' ∨ c = 'b' then (some c, t)
      else (none, c :: t)
    | [] => (none, [])
  let g3 : Option (List Char) × List Char :=
    match g2.2 with
    | ',' :: t =>
      let ds := t.takeWhile Char.isDigit
      if ds = [] then (none, ',' :: t) else (some ds, t.drop ds.length)
    | other => (none, other)
  let g4 : Option (List Char) :=
    match g3.2 with
    | ',' :: t =>
      let ds := t.takeWhile Char.isDigit
      if ds = [] then none else some ds
    | _ => none
  let s := match g1.1 with
    | some c => { s with font := String.mk [c] }
    | none => s
  let s := match g2.1 with
    | some c => { s with rotation := c.toUpper }
    | none => s
  let s := match g3.1 with
    | some ds => { s with fontHeight := some (digitsVal ds) }
    | none => s
  match g4 with
  | some ds =>
    { s with fontWidth := if digitsVal ds = 0 then s.fontHeight else some (digitsVal ds) }
  | none => s

/-- `handleChangeFont(params)`: set font id / height / width from the
truthy (non-empty) comma-separated parts; `parseInt` of a non-numeric
part stores `NaN`. -/
def handleChangeFont (s : RState) (params : String) : RState :=
  let parts := jsSplit params
  let p0 := parts.getD 0 ""
  let p1 := parts.getD 1 ""
  let p2 := parts.getD 2 ""
  let s := if p0 ≠ "" then { s with font := p0 } else s
  let s := if p1 ≠ "" then { s with fontHeight := jsParseInt p1 } else s
  if p2 ≠ "" then { s with fontWidth := jsParseInt p2 } else s

/-- `handleFieldData`: draws the (escape-decoded) text; the only state
effect is clearing the reverse-print flag afterwards. -/
def handleFieldData (s : RState) : RState :=
  { s with fieldReversePrint := false }

/-- `handleFieldBlock(params)`:
`blockWidth = parseInt(parts[0]) || labelWidth`. -/
def handleFieldBlock (s : RState) (params : String) : RState :=
  let parts := jsSplit params
  { s with blockWidth := some (jsOrInt (jsParseInt (parts.getD 0 "")) s.labelWidth) }

/-- `handleBarcodeDefaults(params)` (`^BY`): module width, wide-to-narrow
ratio (`parseFloat`), height — each only when the part is truthy. -/
def handleBarcodeDefaults (s : RState) (params : String) : RState :=
  let parts := jsSplit params
  let p0 := parts.getD 0 ""
  let p1 := parts.getD 1 ""
  let p2 := parts.getD 2 ""
  let s := if p0 ≠ "" then { s with barcodeModuleWidth := jsParseInt p0 } else s
  let s := if p1 ≠ "" then { s with barcodeWideToNarrow := jsParseFloat p1 } else s
  if p2 ≠ "" then { s with barcodeHeight := jsParseInt p2 } else s

/-- `handleBarcode128(params)` (`^BC`): records the pending Code-128
descriptor at the cursor; nothing is drawn. -/
def handleBarcode128 (s : RState) (params : String) : RState :=
  let parts := jsSplit params
  let orientation := jsOrStr (parts.getD 0 "") "N"
  let height := jsOrOpt (jsParseInt (parts.getD 1 "")) s.barcodeHeight
  let printText := jsToUpperCase (jsOrStr (parts.getD 2 "") "Y") = "Y"
  let textAbove := jsToUpperCase (jsOrStr (parts.getD 3 "") "N") = "Y"
  { s with pendingBarcode :=
      (some (.code128 orientation height printText textAbove s.x s.y)) }

/-- `handleQRCode(params)` (`^BQ`): records the pending QR descriptor. -/
def handleQRCode (s : RState) (params : String) : RState :=
  let parts := jsSplit params
  let orientation := jsOrStr (parts.getD 0 "") "N"
  let model := jsOrInt (jsParseInt (parts.getD 1 "")) 2
  let magnification := jsOrInt (jsParseInt (parts.getD 2 "")) 3
  { s with pendingBarcode :=
      (some (.qr orientation model magnification s.x s.y)) }

/-- `handleLabelHome(params)` (`^LH`): stores the offset (which no
drawing path ever applies). -/
def handleLabelHome (s : RState) (params : String) : RState :=
  let parts := jsSplit params
  { s with
    labelHomeX := some (jsOrInt (jsParseInt (parts.getD 0 "")) 0)
    labelHomeY := some (jsOrInt (jsParseInt (parts.getD 1 "")) 0) }

/-- `handleFieldOrientation(params)` (`^FW`): rotation from the first
character, upper-cased, when the parameter string is non-empty. -/
def handleFieldOrientation (s : RState) (params : String) : RState :=
  match params.toList with
  | c :: _ => { s with rotation := c.toUpper }
  | [] => s

/-- The command names with a case in `executeCommand`'s switch. -/
def supportedCommands : List String :=
  ["XA", "XZ", "FO", "FD", "FS", "A", "A0", "CF", "FB", "GB", "GF",
   "BY", "BC", "BQ", "FR", "LH", "LL", "PW", "FW"]

/-- `executeCommand(ctx, cmd)` as a state transition, paired with the
list of diagnostics `render`'s `catch` would append for this record.
None of the switch branches below can throw (they are `split`,
`parseInt`, regex and property writes; the canvas drawing calls of
`FD`/`GB`/`GF` are not part of interpreter state), so the appended list
is empty in every branch; in particular the `default` branch only calls
`console.log` and appends nothing to the `errors` array. -/
def execCmd (s : RState) (cmd : Cmd) : RState × List String :=
  match cmd.command with
  | "XA" => (s, [])
  | "XZ" => (s, [])
  | "FO" => (handleFieldOrigin s cmd.params, [])
  | "FD" => (handleFieldData s, [])
  | "FS" => (s, [])
  | "A" => (handleFont s cmd.params, [])
  | "A0" => (handleFont s cmd.params, [])
  | "CF" => (handleChangeFont s cmd.params, [])
  | "FB" => (handleFieldBlock s cmd.params, [])
  | "GB" => (s, [])
  | "GF" => (s, [])
  | "BY" => (handleBarcodeDefaults s cmd.params, [])
  | "BC" => (handleBarcode128 s cmd.params, [])
  | "BQ" => (handleQRCode s cmd.params, [])
  | "FR" => ({ s with fieldReversePrint := true }, [])
  | "LH" => (handleLabelHome s cmd.params, [])
  | "LL" => (s, [])
  | "PW" => (s, [])
  | "FW" => (handleFieldOrientation s cmd.params, [])
  | _ => (s, [])

/-- The interpreter state at the start of `render(zpl, w, h)`: after the
`reset()` call and the `labelWidth`/`labelHeight` assignments, before
any record is processed. -/
def renderStart (s : RState) (w h : ℤ) : RState :=
  { reset s with labelWidth := w, labelHeight := h }

/-- `render(zpl, widthPx, heightPx)`: reset, set the label size, then
execute the parsed records in order, accumulating diagnostics.  Returns
the final instance state together with the `errors` array. -/
def render (s : RState) (zpl : String) (w h : ℤ) : RState × List String :=
  (parseZPL zpl).foldl
    (fun acc cmd =>
      let r := execCmd acc.1 cmd
      (r.1, acc.2 ++ r.2))
    (renderStart s w h, [])

/-! ## utils.js: toMonochromeBitmap -/

/-- Per-pixel luminance of `ImageData`-style channel data (`data i` is
the `i`-th channel byte: R,G,B,A interleaved):
`0.299*R + 0.587*G + 0.114*B`. -/
def grayscaleOf (data : ℕ → ℕ) (i : ℕ) : ℚ :=
  0.299 * (data (i * 4) : ℚ) + 0.587 * (data (i * 4 + 1) : ℚ) +
    0.114 * (data (i * 4 + 2) : ℚ)

/-- `grayscale[i] += v` (in-bounds by the guards at every call site). -/
def fsAdd (g : List ℚ) (i : ℕ) (v : ℚ) : List ℚ :=
  g.set i (g.getD i 0 + v)

/-- The body of the Floyd–Steinberg loop for pixel `(x, y)`: quantize in
place and diffuse the signed error east, southwest, south and southeast,
skipping out-of-bounds neighbours. -/
def fsStep (width height : ℕ) (g : List ℚ) (y x : ℕ) : List ℚ :=
  let idx := y * width + x
  let oldPixel := g.getD idx 0
  let newPixel : ℚ := if oldPixel < 128 then 0 else 255
  let g := g.set idx newPixel
  let error := oldPixel - newPixel
  let g := if x + 1 < width then fsAdd g (idx + 1) (error * 7 / 16) else g
  if y + 1 < height then
    let g := if 0 < x then fsAdd g ((y + 1) * width + (x - 1)) (error * 3 / 16) else g
    let g := fsAdd g ((y + 1) * width + x) (error * 5 / 16)
    if x + 1 < width then fsAdd g ((y + 1) * width + (x + 1)) (error * 1 / 16) else g
  else g

/-- The full row-major Floyd–Steinberg pass. -/
def fsDither (width height : ℕ) (g : List ℚ) : List ℚ :=
  (List.range height).foldl
    (fun g y => (List.range width).foldl (fun g x => fsStep width height g y x) g) g

/-- One iteration of the packing loop: set bit `7 - x%8` of byte
`y*rowBytes + x/8` when the (possibly dithered) grayscale value is at
least 128 (white = 1), as in `bitmap[byteIdx] |= (1 << bitIdx)`. -/
def packStep (gray : List ℚ) (rowBytes width : ℕ) (bm : List ℕ) (y x : ℕ) : List ℕ :=
  if 128 ≤ gray.getD (y * width + x) 0 then
    bm.set (y * rowBytes + x / 8)
      ((bm.getD (y * rowBytes + x / 8) 0) ||| (1 <<< (7 - x % 8)))
  else bm

/-- `toMonochromeBitmap(imageData, dither)`: grayscale conversion,
optional error diffusion, then MSB-first packing into
`ceil(width/8) * height` bytes (white = 1, black = 0). -/
def toMonochromeBitmap (data : ℕ → ℕ) (width height : ℕ) (dither : Bool) : List ℕ :=
  let gray := (List.range (width * height)).map (grayscaleOf data)
  let gray := if dither then fsDither width height gray else gray
  let rowBytes := (width + 7) / 8
  let init := List.replicate (rowBytes * height) 0
  (List.range height).foldl
    (fun bm y => (List.range width).foldl (fun bm x => packStep gray rowBytes width bm y x) bm)
    init

/-- Channel data of an image whose every channel byte is 128 (in
particular R = G = B = 128 at every pixel). -/
def data128 : ℕ → ℕ := fun _ => 128

/-! ## Fold helper lemmas -/

/-- A predicate preserved by every step is preserved by the fold. -/
theorem foldl_preserve {α β : Type} (P : α → Prop) (f : α → β → α) (l : List β)
    (a : α) (hstep : ∀ x b, P x → P (f x b)) (h0 : P a) : P (l.foldl f a) := by
  induction l generalizing a with
  | nil => exact h0
  | cons b t ih => exact ih _ (hstep _ _ h0)

/-- If some step of the fold establishes `P` (from an invariant `Q`) and
every step preserves both, the fold's result satisfies `P`. -/
theorem foldl_establish {α β : Type} (P Q : α → Prop) (f : α → β → α) (l : List β)
    (b0 : β) (hQstep : ∀ x b, Q x → Q (f x b))
    (hPstep : ∀ x b, P x → P (f x b)) (hset : ∀ x, Q x → P (f x b0)) :
    ∀ a : α, b0 ∈ l → Q a → P (l.foldl f a) := by
  induction l with
  | nil =>
    intro a hmem _
    cases hmem
  | cons b t ih =>
    intro a hmem hQ0
    rcases List.mem_cons.mp hmem with hb | hb
    · subst hb
      exact foldl_preserve P f t _ hPstep (hset a hQ0)
    · exact ih _ hb (hQstep a b hQ0)

/-- Setting `old ||| v` at any position never clears a set bit at any
position. -/
theorem testBit_getD_set_lor (bm : List ℕ) (j v i pos : ℕ)
    (h : Nat.testBit (bm.getD i 0) pos = true) :
    Nat.testBit ((bm.set j ((bm.getD j 0) ||| v)).getD i 0) pos = true := by
  rw [List.getD_eq_getElem?_getD] at h
  by_cases hij : j = i
  · subst hij
    by_cases hj : j < bm.length
    · rw [List.getD_eq_getElem?_getD, List.getElem?_set_self hj, Option.getD_some,
        List.getD_eq_getElem?_getD, Nat.testBit_lor, h]
      rfl
    · rw [List.set_eq_of_length_le (Nat.le_of_not_lt hj), List.getD_eq_getElem?_getD]
      exact h
  · rw [List.getD_eq_getElem?_getD, List.getElem?_set_ne hij]
    exact h

/-- `packStep` preserves list length. -/
theorem packStep_length (gray : List ℚ) (rowBytes width : ℕ) (bm : List ℕ) (y x : ℕ) :
    (packStep gray rowBytes width bm y x).length = bm.length := by
  rw [packStep]
  split
  · exact List.length_set ..
  · rfl

/-- `packStep` never clears a set bit. -/
theorem packStep_preserve (gray : List ℚ) (rowBytes width : ℕ) (bm : List ℕ)
    (y x t pos : ℕ) (h : Nat.testBit (bm.getD t 0) pos = true) :
    Nat.testBit ((packStep gray rowBytes width bm y x).getD t 0) pos = true := by
  rw [packStep]
  split
  · exact testBit_getD_set_lor bm _ _ t pos h
  · exact h

/-- When its threshold test passes and the target byte is in bounds,
`packStep` sets the pixel's bit. -/
theorem packStep_sets (gray : List ℚ) (rowBytes width : ℕ) (bm : List ℕ) (y x : ℕ)
    (hcond : (128 : ℚ) ≤ gray.getD (y * width + x) 0)
    (hlt : y * rowBytes + x / 8 < bm.length) :
    Nat.testBit ((packStep gray rowBytes width bm y x).getD (y * rowBytes + x / 8) 0)
      (7 - x % 8) = true := by
  rw [packStep, if_pos hcond, List.getD_eq_getElem?_getD, List.getElem?_set_self hlt,
    Option.getD_some, Nat.testBit_lor, Nat.shiftLeft_eq, one_mul,
    Nat.testBit_two_pow_self, Bool.or_true]

/-- The grayscale list of a `width*height`-pixel image evaluates to the
luminance of pixel `i` at every in-range index. -/
theorem gray_getD (data : ℕ → ℕ) (n i : ℕ) (hi : i < n) :
    ((List.range n).map (grayscaleOf data)).getD i 0 = grayscaleOf data i := by
  rw [List.getD_eq_getElem?_getD, List.getElem?_map, List.getElem?_range hi]
  rfl

/-- **C5.** For every width ≥ 1 and height ≥ 1, `toMonochromeBitmap`
with `dither = false` on an image whose every pixel has R = G = B = 128
computes luminance exactly `0.299*128 + 0.587*128 + 0.114*128 = 128`,
which meets the inclusive `≥ 128` white threshold, so every pixel bit
within the width is 1 (white).  (In the browser the sum is stored into
a `Float32Array`, whose rounding also yields exactly 128, so the exact
model agrees with the floating-point evaluation here.) -/
theorem toMonochromeBitmap_gray128_white (w h : ℕ) (_hw : 1 ≤ w) (_hh : 1 ≤ h)
    (x y : ℕ) (hx : x < w) (hy : y < h) :
    grayscaleOf data128 (y * w + x) = 128 ∧
    (128 : ℚ) ≤ grayscaleOf data128 (y * w + x) ∧
    Nat.testBit ((toMonochromeBitmap data128 w h false).getD
      (y * ((w + 7) / 8) + x / 8) 0) (7 - x % 8) = true := by
  have hlum : ∀ i : ℕ, grayscaleOf data128 i = 128 := by
    intro i
    simp only [grayscaleOf, data128]
    norm_num
  refine ⟨hlum _, by rw [hlum], ?_⟩
  set rb := (w + 7) / 8 with hrb
  set gray := (List.range (w * h)).map (grayscaleOf data128) with hgray
  have hgray128 : ∀ i : ℕ, i < w * h → (128 : ℚ) ≤ gray.getD i 0 := by
    intro i hi
    rw [hgray, gray_getD data128 (w * h) i hi, hlum]
  have hx8 : x / 8 < rb := by
    rw [hrb]
    omega
  have htarget : ∀ len : ℕ, len = rb * h → y * rb + x / 8 < len := by
    intro len hlen
    subst hlen
    calc y * rb + x / 8 < y * rb + rb := by omega
    _ = (y + 1) * rb := by ring
    _ ≤ h * rb := Nat.mul_le_mul_right rb hy
    _ = rb * h := Nat.mul_comm h rb
  have hidx : y * w + x < w * h := by
    calc y * w + x < y * w + w := by omega
    _ = (y + 1) * w := by ring
    _ ≤ h * w := Nat.mul_le_mul_right w hy
    _ = w * h := Nat.mul_comm h w
  -- names for the predicates and the two fold step functions
  set P : List ℕ → Prop :=
    fun b => Nat.testBit (b.getD (y * rb + x / 8) 0) (7 - x % 8) = true with hP
  set Q : List ℕ → Prop := fun b => b.length = rb * h with hQ
  set inner : List ℕ → ℕ → List ℕ :=
    fun bm yy => (List.range w).foldl (fun bm xx => packStep gray rb w bm yy xx) bm
    with hinner
  have hQpack : ∀ (yy : ℕ) (b : List ℕ) (xx : ℕ), Q b → Q (packStep gray rb w b yy xx) := by
    intro yy b xx hb
    simp only [hQ] at hb ⊢
    rw [packStep_length]
    exact hb
  have hPpack : ∀ (yy : ℕ) (b : List ℕ) (xx : ℕ), P b → P (packStep gray rb w b yy xx) := by
    intro yy b xx hb
    simp only [hP] at hb ⊢
    exact packStep_preserve gray rb w b yy xx _ _ hb
  have hQstep : ∀ (b : List ℕ) (yy : ℕ), Q b → Q (inner b yy) := by
    intro b yy hb
    exact foldl_preserve Q _ (List.range w) b (hQpack yy) hb
  have hPstep : ∀ (b : List ℕ) (yy : ℕ), P b → P (inner b yy) := by
    intro b yy hb
    exact foldl_preserve P _ (List.range w) b (hPpack yy) hb
  have hrow : ∀ b : List ℕ, Q b → P (inner b y) := by
    intro b hb
    refine foldl_establish P Q (fun bm xx => packStep gray rb w bm y xx)
      (List.range w) x (hQpack y) (hPpack y) ?_ b (List.mem_range.mpr hx) hb
    intro b2 hb2
    simp only [hP]
    simp only [hQ] at hb2
    exact packStep_sets gray rb w b2 y x (hgray128 _ hidx) (htarget b2.length hb2)
  have hfin : P ((List.range h).foldl inner (List.replicate (rb * h) 0)) := by
    refine foldl_establish P Q inner (List.range h) y hQstep hPstep hrow
      (List.replicate (rb * h) 0) (List.mem_range.mpr hy) ?_
    simp only [hQ, List.length_replicate]
  simp only [hP] at hfin
  exact hfin

/-- Witness for C5: on a 3 × 2 all-gray image, the bit of pixel (2, 1)
is white. -/
theorem toMonochromeBitmap_gray128_white_witness :
    (1 ≤ 3 ∧ 1 ≤ 2 ∧ 2 < 3 ∧ 1 < 2) ∧
    grayscaleOf data128 (1 * 3 + 2) = 128 ∧
    (128 : ℚ) ≤ grayscaleOf data128 (1 * 3 + 2) ∧
    Nat.testBit ((toMonochromeBitmap data128 3 2 false).getD
      (1 * ((3 + 7) / 8) + 2 / 8) 0) (7 - 2 % 8) = true :=
  ⟨by omega,
   toMonochromeBitmap_gray128_white 3 2 (by omega) (by omega) 2 1 (by omega) (by omega)⟩

/-! ## zpl-renderer.js: compressed graphic-field decoder -/

/-- `(nibble << 4) | nibble` for `nibble = parseInt(hexChar, 16)`:
duplicates the hex digit into both halves of a byte; when the character
is not a hex digit, `NaN` coerces to 0 under `<<`/`|`. -/
def jsNibbleDup (c : Char) : ℕ :=
  if isHexDigitChar c then hexVal c * 16 + hexVal c else 0

/-- `parseInt(data.substr(i, 2), 16) || 0` for a pair whose first
character is a hex digit: both digits when the second is one too, else
just the first (`parseInt` takes the longest hex-digit prefix). -/
def jsLiteralByte (c : Char) (next : Option Char) : ℕ :=
  match next with
  | some d => if isHexDigitChar d then hexVal c * 16 + hexVal d else hexVal c
  | none => hexVal c

/-- The scan loop of `decodeCompressedHex`, returning the bytes written;
`budget` is the remaining space `totalBytes - byteIdx` (the loop guard
`byteIdx < totalBytes`).  An uppercase `'G'`–`'Y'` repeats the
duplicated following nibble `charCode - 70` times, a lowercase
`'g'`–`'z'` repeats it `(charCode - 102) * 20` times, a hex digit starts
a two-character literal byte, and any other character is skipped
(`i++`).  A repeat letter at the end of input reads the missing
follower as `'0'` (`data[i + 1] || '0'`). -/
def decodeTokens : List Char → ℕ → List ℕ
  | [], _ => []
  | _ :: _, 0 => []
  | [c], budget + 1 =>
    if 'G'.toNat ≤ c.toNat ∧ c.toNat ≤ 'Y'.toNat then
      List.replicate (min (c.toNat - 'F'.toNat) (budget + 1)) (jsNibbleDup '0')
    else if 'g'.toNat ≤ c.toNat ∧ c.toNat ≤ 'z'.toNat then
      List.replicate (min ((c.toNat - 'f'.toNat) * 20) (budget + 1)) (jsNibbleDup '0')
    else if isHexDigitChar c then
      [jsLiteralByte c none]
    else []
  | c :: d :: rest, budget + 1 =>
    if 'G'.toNat ≤ c.toNat ∧ c.toNat ≤ 'Y'.toNat then
      List.replicate (min (c.toNat - 'F'.toNat) (budget + 1)) (jsNibbleDup d) ++
        decodeTokens rest (budget + 1 - min (c.toNat - 'F'.toNat) (budget + 1))
    else if 'g'.toNat ≤ c.toNat ∧ c.toNat ≤ 'z'.toNat then
      List.replicate (min ((c.toNat - 'f'.toNat) * 20) (budget + 1)) (jsNibbleDup d) ++
        decodeTokens rest (budget + 1 - min ((c.toNat - 'f'.toNat) * 20) (budget + 1))
    else if isHexDigitChar c then
      jsLiteralByte c (some d) :: decodeTokens rest budget
    else decodeTokens (d :: rest) (budget + 1)

/-- `decodeCompressedHex(data, totalBytes)`: a zero-filled
`Uint8Array(totalBytes)` whose leading bytes are overwritten in order by
the scan (`byteIdx` only ever advances), i.e. the written bytes followed
by the untouched zero tail. -/
def decodeCompressedHex (data : String) (totalBytes : ℕ) : List ℕ :=
  decodeTokens data.toList totalBytes ++
    List.replicate (totalBytes - (decodeTokens data.toList totalBytes).length) 0

/-- The pixel test of `handleGraphicField`'s blit loop:
`byteIdx < bytes.length && !((bytes[byteIdx] >> bitIdx) & 1)` — bit
value 0 renders as a black pixel. -/
def isBlackPixel (bytes : List ℕ) (byteIdx bitIdx : ℕ) : Bool :=
  byteIdx < bytes.length ∧ ((bytes.getD byteIdx 0) >>> bitIdx) &&& 1 = 0

/-- The scan never writes more bytes than its budget. -/
theorem decodeTokens_length_le : ∀ (l : List Char) (b : ℕ), (decodeTokens l b).length ≤ b
  | [], _ => by simp [decodeTokens]
  | _ :: _, 0 => by simp [decodeTokens]
  | [c], b + 1 => by
    rw [decodeTokens]
    split_ifs <;>
      (try simp only [List.length_replicate, List.length_cons, List.length_nil]) <;> omega
  | c :: d :: rest, b + 1 => by
    have h1 := decodeTokens_length_le rest (b + 1 - min (c.toNat - 'F'.toNat) (b + 1))
    have h2 := decodeTokens_length_le rest (b + 1 - min ((c.toNat - 'f'.toNat) * 20) (b + 1))
    have h3 := decodeTokens_length_le rest b
    have h4 := decodeTokens_length_le (d :: rest) (b + 1)
    rw [decodeTokens]
    split_ifs <;>
      (try simp only [List.length_append, List.length_replicate, List.length_cons]) <;>
      omega

/-- A zero budget writes nothing. -/
theorem decodeTokens_zero (l : List Char) : decodeTokens l 0 = [] := by
  cases l with
  | nil => rfl
  | cons c t => cases t <;> rfl


/-- **C6.** The compressed decoder maps `"G0"` with `totalBytes = 1` to
the single byte `0x00` and `"Y0"` (with `totalBytes ≥ 19`) to 19 written
bytes of `0x00` (hence an all-zero output); in general an uppercase
`'G'`–`'Y'` encodes a repeat count `charCode - 'F'` in 1..19 of the byte
whose both nibbles are the following hex digit, a lowercase `'g'`–`'z'`
encodes `(charCode - 'f') * 20` in 20..400 such bytes, a hex digit
starts a literal two-character byte, and any other character is skipped
without affecting the decoding of subsequent tokens. -/
theorem decodeCompressedHex_tokens :
    (decodeCompressedHex "G0" 1 = [0x00]) ∧
    (∀ total : ℕ, 19 ≤ total →
      decodeTokens "Y0".toList total = List.replicate 19 0x00 ∧
      decodeCompressedHex "Y0" total = List.replicate total 0x00) ∧
    (∀ (c d : Char) (rest : List Char) (budget : ℕ),
      'G'.toNat ≤ c.toNat → c.toNat ≤ 'Y'.toNat →
      (1 ≤ c.toNat - 'F'.toNat ∧ c.toNat - 'F'.toNat ≤ 19) ∧
      (isHexDigitChar d = true →
        decodeTokens (c :: d :: rest) budget =
          List.replicate (min (c.toNat - 'F'.toNat) budget) (hexVal d * 16 + hexVal d) ++
            decodeTokens rest (budget - min (c.toNat - 'F'.toNat) budget))) ∧
    (∀ (c d : Char) (rest : List Char) (budget : ℕ),
      'g'.toNat ≤ c.toNat → c.toNat ≤ 'z'.toNat →
      (20 ≤ (c.toNat - 'f'.toNat) * 20 ∧ (c.toNat - 'f'.toNat) * 20 ≤ 400) ∧
      (isHexDigitChar d = true →
        decodeTokens (c :: d :: rest) budget =
          List.replicate (min ((c.toNat - 'f'.toNat) * 20) budget)
              (hexVal d * 16 + hexVal d) ++
            decodeTokens rest (budget - min ((c.toNat - 'f'.toNat) * 20) budget))) ∧
    (∀ (c d : Char) (rest : List Char) (budget : ℕ), isHexDigitChar c = true →
      decodeTokens (c :: d :: rest) (budget + 1) =
        jsLiteralByte c (some d) :: decodeTokens rest budget) ∧
    (∀ (c : Char) (rest : List Char) (budget : ℕ),
      ¬('G'.toNat ≤ c.toNat ∧ c.toNat ≤ 'Y'.toNat) →
      ¬('g'.toNat ≤ c.toNat ∧ c.toNat ≤ 'z'.toNat) →
      isHexDigitChar c = false →
      decodeTokens (c :: rest) budget = decodeTokens rest budget) := by
  have hG : 'G'.toNat = 71 := by decide
  have hY : 'Y'.toNat = 89 := by decide
  have hF : 'F'.toNat = 70 := by decide
  have hg : 'g'.toNat = 103 := by decide
  have hz : 'z'.toNat = 122 := by decide
  have hf : 'f'.toNat = 102 := by decide
  have hexBounds : ∀ e : Char, isHexDigitChar e = true →
      (48 ≤ e.toNat ∧ e.toNat ≤ 57) ∨ (65 ≤ e.toNat ∧ e.toNat ≤ 70) ∨
      (97 ≤ e.toNat ∧ e.toNat ≤ 102) := by
    intro e he
    have h0 : '0'.toNat = 48 := by decide
    have h9 : '9'.toNat = 57 := by decide
    have hA : 'A'.toNat = 65 := by decide
    have hFcap : 'F'.toNat = 70 := by decide
    have ha : 'a'.toNat = 97 := by decide
    have hfl : 'f'.toNat = 102 := by decide
    rw [isHexDigitChar, h0, h9, hA, hFcap, ha, hfl] at he
    exact of_decide_eq_true he
  refine ⟨by decide, ?_, ?_, ?_, ?_, ?_⟩
  · intro total htotal
    obtain ⟨b, rfl⟩ : ∃ b, total = b + 1 := ⟨total - 1, by omega⟩
    have hmin : min ('Y'.toNat - 'F'.toNat) (b + 1) = 19 := by
      rw [hY, hF]
      omega
    have hnib : jsNibbleDup '0' = 0 := by decide
    have hw : decodeTokens "Y0".toList (b + 1) = List.replicate 19 0x00 := by
      show decodeTokens ('Y' :: '0' :: []) (b + 1) = List.replicate 19 0x00
      simp only [decodeTokens]
      rw [if_pos (by rw [hG, hY]; omega : 'G'.toNat ≤ 'Y'.toNat ∧ 'Y'.toNat ≤ 'Y'.toNat),
        hmin, hnib, List.append_nil]
    refine ⟨hw, ?_⟩
    rw [decodeCompressedHex]
    show decodeTokens "Y0".toList (b + 1) ++
      List.replicate (b + 1 - (decodeTokens "Y0".toList (b + 1)).length) 0 =
      List.replicate (b + 1) 0
    rw [hw, List.length_replicate, ← List.replicate_add]
    congr 1
    omega
  · intro c d rest budget h1 h2
    have hc71 : 71 ≤ c.toNat := hG ▸ h1
    have hc89 : c.toNat ≤ 89 := hY ▸ h2
    refine ⟨by rw [hF]; omega, ?_⟩
    intro hd
    cases budget with
    | zero =>
      rw [decodeTokens_zero, Nat.min_zero, List.replicate_zero, List.nil_append,
        Nat.zero_sub, decodeTokens_zero]
    | succ b =>
      simp only [decodeTokens]
      rw [if_pos ⟨h1, h2⟩, jsNibbleDup, if_pos hd]
  · intro c d rest budget h1 h2
    have hc103 : 103 ≤ c.toNat := hg ▸ h1
    have hc122 : c.toNat ≤ 122 := hz ▸ h2
    have hnot1 : ¬('G'.toNat ≤ c.toNat ∧ c.toNat ≤ 'Y'.toNat) := by
      rw [hG, hY]
      omega
    refine ⟨by rw [hf]; omega, ?_⟩
    intro hd
    cases budget with
    | zero =>
      rw [decodeTokens_zero, Nat.min_zero, List.replicate_zero, List.nil_append,
        Nat.zero_sub, decodeTokens_zero]
    | succ b =>
      simp only [decodeTokens]
      rw [if_neg hnot1, if_pos ⟨h1, h2⟩, jsNibbleDup, if_pos hd]
  · intro c d rest budget hc
    have hnot1 : ¬('G'.toNat ≤ c.toNat ∧ c.toNat ≤ 'Y'.toNat) := by
      rw [hG, hY]
      rcases hexBounds c hc with h | h | h <;> omega
    have hnot2 : ¬('g'.toNat ≤ c.toNat ∧ c.toNat ≤ 'z'.toNat) := by
      rw [hg, hz]
      rcases hexBounds c hc with h | h | h <;> omega
    simp only [decodeTokens]
    rw [if_neg hnot1, if_neg hnot2, if_pos hc]
  · intro c rest budget hn1 hn2 hhex
    have hhex' : ¬(isHexDigitChar c = true) := by
      rw [hhex]
      exact Bool.false_ne_true
    cases budget with
    | zero =>
      rw [decodeTokens_zero, decodeTokens_zero]
    | succ b =>
      cases rest with
      | nil =>
        simp only [decodeTokens]
        rw [if_neg hn1, if_neg hn2, if_neg hhex']
      | cons d t =>
        simp only [decodeTokens]
        rw [if_neg hn1, if_neg hn2, if_neg hhex']

/-- Witness for C6: the concrete decodes and one instance of each token
rule — `'H'` repeats twice, `'h'` repeats forty times, `"3Z"` is a
literal byte, `'*'` is skipped. -/
theorem decodeCompressedHex_tokens_witness :
    (decodeCompressedHex "G0" 1 = [0x00]) ∧
    ((19 : ℕ) ≤ 19 ∧ decodeCompressedHex "Y0" 19 = List.replicate 19 0x00) ∧
    decodeTokens ('H' :: '3' :: ['Z']) 5 =
      List.replicate (min ('H'.toNat - 'F'.toNat) 5) (hexVal '3' * 16 + hexVal '3') ++
        decodeTokens ['Z'] (5 - min ('H'.toNat - 'F'.toNat) 5) ∧
    decodeTokens ('h' :: '3' :: []) 50 =
      List.replicate (min (('h'.toNat - 'f'.toNat) * 20) 50) (hexVal '3' * 16 + hexVal '3') ++
        decodeTokens [] (50 - min (('h'.toNat - 'f'.toNat) * 20) 50) ∧
    decodeTokens ('3' :: 'Z' :: ['A']) 4 = jsLiteralByte '3' (some 'Z') :: decodeTokens ['A'] 3 ∧
    decodeTokens ('*' :: ['G']) 7 = decodeTokens ['G'] 7 :=
  ⟨decodeCompressedHex_tokens.1,
   ⟨by omega, (decodeCompressedHex_tokens.2.1 19 (by omega)).2⟩,
   (decodeCompressedHex_tokens.2.2.1 'H' '3' ['Z'] 5 (by decide) (by decide)).2 (by decide),
   (decodeCompressedHex_tokens.2.2.2.1 'h' '3' [] 50 (by decide) (by decide)).2 (by decide),
   decodeCompressedHex_tokens.2.2.2.2.1 '3' 'Z' ['A'] 3 (by decide),
   decodeCompressedHex_tokens.2.2.2.2.2 '*' ['G'] 7 (by decide) (by decide) (by decide)⟩

/-- **C10.** For every input string and every `totalBytes`, the decoder
returns exactly `totalBytes` bytes; every position at or beyond the
written prefix is `0x00`; and a zero byte blits as a black pixel at
every bit position (`bit value 0 = black` in `handleGraphicField`). -/
theorem decodeCompressedHex_full_size (data : String) (totalBytes : ℕ) :
    (decodeCompressedHex data totalBytes).length = totalBytes ∧
    (∀ k : ℕ, (decodeTokens data.toList totalBytes).length ≤ k → k < totalBytes →
      (decodeCompressedHex data totalBytes).getD k 0 = 0) ∧
    (∀ byteIdx bitIdx : ℕ, (decodeTokens data.toList totalBytes).length ≤ byteIdx →
      byteIdx < totalBytes →
      isBlackPixel (decodeCompressedHex data totalBytes) byteIdx bitIdx = true) := by
  have hle := decodeTokens_length_le data.toList totalBytes
  have hlen : (decodeCompressedHex data totalBytes).length = totalBytes := by
    rw [decodeCompressedHex, List.length_append, List.length_replicate]
    omega
  have hzero : ∀ k : ℕ, (decodeTokens data.toList totalBytes).length ≤ k → k < totalBytes →
      (decodeCompressedHex data totalBytes).getD k 0 = 0 := by
    intro k hk1 hk2
    rw [decodeCompressedHex, List.getD_eq_getElem?_getD, List.getElem?_append_right hk1,
      List.getElem?_replicate, if_pos (by omega)]
    rfl
  refine ⟨hlen, hzero, ?_⟩
  intro bi bit h1 h2
  rw [isBlackPixel]
  simp only [hzero bi h1 h2, hlen, Nat.zero_shiftRight, Nat.zero_and, decide_eq_true_eq]
  exact ⟨h2, trivial⟩

/-- Witness for C10: the input `"ZZ"` writes nothing (both characters
are skipped), yet the output is 3 zero bytes, and byte 1 blits black at
bit 5. -/
theorem decodeCompressedHex_full_size_witness :
    (decodeCompressedHex "ZZ" 3).length = 3 ∧
    (decodeCompressedHex "ZZ" 3).getD 1 0 = 0 ∧
    isBlackPixel (decodeCompressedHex "ZZ" 3) 1 5 = true :=
  ⟨(decodeCompressedHex_full_size "ZZ" 3).1,
   (decodeCompressedHex_full_size "ZZ" 3).2.1 1 (by decide) (by decide),
   (decodeCompressedHex_full_size "ZZ" 3).2.2 1 5 (by decide) (by decide)⟩

/-! ## Claims C7, C2, C3, C8 -/

/-- A scan over designator-free text matches nothing, whatever the
fuel. -/
theorem parseZPLAux_no_designator (l : List Char)
    (h : ∀ c ∈ l, c ≠ '^' ∧ c ≠ '~') : ∀ fuel : ℕ, parseZPLAux fuel l = [] := by
  induction l with
  | nil =>
    intro fuel
    cases fuel <;> rfl
  | cons c rest ih =>
    intro fuel
    cases fuel with
    | zero => rfl
    | succ f =>
      have hc : ¬(isDesignator c = true) := by
        have := h c (List.mem_cons_self c rest)
        simp [isDesignator, this.1, this.2]
      simp only [parseZPLAux]
      rw [if_neg hc]
      exact ih (fun c hc => h c (List.mem_cons_of_mem _ hc)) f

/-- **C7.** The parser maps any input without a designator character
(`^` or `~`) — including the empty string — to the empty record
sequence, and maps `"^FO10,20^FDHi^FS"` to exactly the records
`(FO, "10,20")`, `(FD, "Hi")`, `(FS, "")` in that order, of which `FS`
is a no-op in the interpreter. -/
theorem parseZPL_correct :
    (∀ s : String, (∀ c ∈ s.toList, c ≠ '^' ∧ c ≠ '~') → parseZPL s = []) ∧
    parseZPL "^FO10,20^FDHi^FS" = [⟨"FO", "10,20"⟩, ⟨"FD", "Hi"⟩, ⟨"FS", ""⟩] ∧
    (∀ st : RState, execCmd st ⟨"FS", ""⟩ = (st, [])) := by
  refine ⟨?_, by decide, fun st => rfl⟩
  intro s hs
  exact parseZPLAux_no_designator s.toList hs s.toList.length

/-- Witness for C7: designator-free text (and the empty string) parse to
no records. -/
theorem parseZPL_correct_witness :
    (∀ c ∈ ("hello, world" : String).toList, c ≠ '^' ∧ c ≠ '~') ∧
    parseZPL "hello, world" = [] ∧ parseZPL "" = [] :=
  ⟨by decide, parseZPL_correct.1 "hello, world" (by decide),
   parseZPL_correct.1 "" (by decide)⟩

/-- Counterexample for **C2** as stated: executing the unknown record
`^QQ` appends zero entries to the diagnostics list, not exactly one —
the interpreter's `default` branch only writes to the console and
nothing is pushed onto the `errors` array `render` returns. -/
theorem unknownCommand_counterexample :
    (execCmd initialState ⟨"QQ", ""⟩).2 = [] ∧
    ¬((execCmd initialState ⟨"QQ", ""⟩).2.length = 1) := by
  refine ⟨by decide, by decide⟩

/-- **C2 (amended).** For every interpreter state and every parsed
record whose command name is not one of the supported commands,
execution returns the state completely unchanged (in particular cursor
position, font id, font height/width and rotation) and appends no
diagnostic entry to the list returned by `render`; the unknown name is
only logged to the console. -/
theorem unknownCommand_ignored (st : RState) (cmd : Cmd)
    (h : cmd.command ∉ supportedCommands) :
    execCmd st cmd = (st, []) := by
  obtain ⟨name, params⟩ := cmd
  simp only [supportedCommands, List.mem_cons, List.not_mem_nil, or_false, not_or] at h
  rw [execCmd]
  split <;> simp_all

/-- Witness for C2 (amended): the unknown record `^QQ`. -/
theorem unknownCommand_ignored_witness :
    ("QQ" ∉ supportedCommands) ∧ execCmd initialState ⟨"QQ", ""⟩ = (initialState, []) :=
  ⟨by decide, unknownCommand_ignored initialState ⟨"QQ", ""⟩ (by decide)⟩

/-- Counterexample for **C3** as stated: the pending barcode descriptor
recorded by `^BC` during one render call is still observable at the
start of the next render call, and even after that second render of an
empty label completes — `reset()` never clears `pendingBarcode` (nor
`labelHomeX`/`labelHomeY`/`blockWidth`). -/
theorem renderState_leak_counterexample :
    initialState.pendingBarcode = none ∧
    (renderStart (render initialState "^BCN" 320 240).1 320 240).pendingBarcode =
      some (.code128 "N" (some 100) true false 0 0) ∧
    (render (render initialState "^BCN" 320 240).1 "" 320 240).1.pendingBarcode =
      some (.code128 "N" (some 100) true false 0 0) := by
  refine ⟨rfl, by decide, by decide⟩

/-- **C3 (amended).** At the start of every render call the
constructor-initialized fields are reset to the documented defaults —
cursor at the origin, font id `"0"`, font size 30×30, rotation `N`
(0°), reverse-print off, default barcode geometry — and the label size
is set from the arguments; but the pending barcode descriptor, the
label-home offset and the field-block width are NOT reset: they keep
whatever values the previous render left in them. -/
theorem renderStart_resets (s : RState) (w h : ℤ) :
    (renderStart s w h).x = 0 ∧ (renderStart s w h).y = 0 ∧
    (renderStart s w h).font = "0" ∧
    (renderStart s w h).fontHeight = some 30 ∧
    (renderStart s w h).fontWidth = some 30 ∧
    (renderStart s w h).rotation = 'N' ∧
    (renderStart s w h).fieldReversePrint = false ∧
    (renderStart s w h).barcodeHeight = some 100 ∧
    (renderStart s w h).barcodeModuleWidth = some 2 ∧
    (renderStart s w h).barcodeWideToNarrow = some 3 ∧
    (renderStart s w h).labelWidth = w ∧ (renderStart s w h).labelHeight = h ∧
    (renderStart s w h).pendingBarcode = s.pendingBarcode ∧
    (renderStart s w h).labelHomeX = s.labelHomeX ∧
    (renderStart s w h).labelHomeY = s.labelHomeY ∧
    (renderStart s w h).blockWidth = s.blockWidth := by
  refine ⟨rfl, rfl, rfl, rfl, rfl, rfl, rfl, rfl, rfl, rfl, rfl, rfl, rfl, rfl, rfl, rfl⟩

/-- Counterexample for **C8** as stated: `^FO-5,10` sets the cursor x
coordinate to −5 — `parseInt(parts[0]) || 0` keeps negative values
(−5 is truthy), so the resulting coordinates are not always
non-negative. -/
theorem fieldOrigin_negative_counterexample :
    (execCmd initialState ⟨"FO", "-5,10"⟩).1.x = -5 ∧
    (execCmd initialState ⟨"FO", "-5,10"⟩).1.x < 0 := by
  refine ⟨by decide, by decide⟩

/-- **C8 (amended).** For every state and parameter string, the
field-origin command sets each cursor coordinate to the JavaScript
`parseInt` of the corresponding comma-separated parameter, with 0 when
the parameter fails to parse (`NaN`); a parameter that parses to a
non-negative integer yields that non-negative coordinate, but a
negative parameter yields a negative coordinate.  The reverse-print
flag is false after the command executes, and no diagnostic is
appended. -/
theorem fieldOrigin_sets_cursor (st : RState) (params : String) :
    (execCmd st ⟨"FO", params⟩).1.x =
      jsOrInt (jsParseInt ((jsSplit params).getD 0 "")) 0 ∧
    (execCmd st ⟨"FO", params⟩).1.y =
      jsOrInt (jsParseInt ((jsSplit params).getD 1 "")) 0 ∧
    (execCmd st ⟨"FO", params⟩).1.fieldReversePrint = false ∧
    (execCmd st ⟨"FO", params⟩).2 = [] ∧
    (jsParseInt ((jsSplit params).getD 0 "") = none →
      (execCmd st ⟨"FO", params⟩).1.x = 0) ∧
    (∀ v : ℤ, jsParseInt ((jsSplit params).getD 0 "") = some v → 0 ≤ v →
      0 ≤ (execCmd st ⟨"FO", params⟩).1.x) := by
  refine ⟨rfl, rfl, rfl, rfl, ?_, ?_⟩
  · intro hnone
    show jsOrInt (jsParseInt ((jsSplit params).getD 0 "")) 0 = 0
    rw [hnone]
    rfl
  · intro v hv hv0
    show 0 ≤ jsOrInt (jsParseInt ((jsSplit params).getD 0 "")) 0
    rw [hv, jsOrInt]
    split <;> omega

/-- Witness for C8 (amended): `^FO10,20` puts the cursor at (10, 20)
with the reverse-print flag cleared. -/
theorem fieldOrigin_sets_cursor_witness :
    (execCmd initialState ⟨"FO", "10,20"⟩).1.x =
      jsOrInt (jsParseInt ((jsSplit "10,20").getD 0 "")) 0 ∧
    (execCmd initialState ⟨"FO", "10,20"⟩).1.fieldReversePrint = false ∧
    jsParseInt ((jsSplit "10,20").getD 0 "") = some 10 ∧
    0 ≤ (execCmd initialState ⟨"FO", "10,20"⟩).1.x :=
  ⟨(fieldOrigin_sets_cursor initialState "10,20").1,
   (fieldOrigin_sets_cursor initialState "10,20").2.2.1,
   by decide,
   (fieldOrigin_sets_cursor initialState "10,20").2.2.2.2.2 10 (by decide) (by decide)⟩
